import Mathlib

/-!
Verification of the SOM variant-filtering core of `src/vcfsom.c` against its
natural-language specification.

Modelling conventions for the shallow embedding:
* C `double` values are modelled as `ℚ` (exact field arithmetic, no rounding);
  the transcendental `exp` from `math.h` is threaded through as an abstract
  function parameter `expf : ℚ → ℚ` wherever the source calls it, so every
  definition stays executable.
* C strings are `List Char`; flat C arrays indexed by pointer arithmetic are
  modelled as functions `Nat → ℚ` with the same flat indices the source uses.
* `HUGE_VAL` sentinels are modelled by `Option` (`none` = `HUGE_VAL`).
* Fatal `error(...)` calls are modelled by `Except String`.
-/

set_option maxRecDepth 4000

namespace Vcfsom

/-! ### Mask handling: `parse_mask` and `str_mask_set` (src/vcfsom.c:250-269)
and the MASK column of `annots_reader_next` (src/vcfsom.c:309-311). -/

/-- Embeds `parse_mask` (src/vcfsom.c:250-259): scan the option string from
index 0 (the leftmost character) and set bit `i` of the result (`mask |= 1<<i`)
for every character `1` at position `i`.  Bit positions stay far below the
32-bit width of a C `int`, so `Nat` bit operations model the C `int` exactly. -/
def parse_mask_from : List Char → Nat → Nat
  | [], _ => 0
  | ch :: rest, i => (if ch = '1' then 1 <<< i else 0) ||| parse_mask_from rest (i + 1)

/-- Embeds the `parse_mask(str)` entry point: the scan starts at index 0. -/
def parse_mask (s : List Char) : Nat := parse_mask_from s 0

/-- Embeds `str_mask_set` (src/vcfsom.c:260-269): walk the row's mask string
while it consists of `0`/`1` characters and return 1 as soon as a position `i`
holds `1` and `mask & (i<<1)` is non-zero (the C expression `mask & i<<1`
parses as `mask & (i << 1)`); return 0 when the scan falls off the string. -/
def str_mask_set (mask : Nat) : List Char → Nat → Nat
  | [], _ => 0
  | ch :: rest, i =>
    if ch = '0' ∨ ch = '1' then
      if ch = '1' ∧ mask &&& (i <<< 1) ≠ 0 then 1 else str_mask_set mask rest (i + 1)
    else 0

/-- Embeds the MASK field of `annots_reader_next` (src/vcfsom.c:309-311):
`args->mask = args->good_mask ? 1 + str_mask_set(t+1, args->good_mask) : 1`. -/
def annots_reader_mask (good_mask : Nat) (s : List Char) : Nat :=
  if good_mask ≠ 0 then 1 + str_mask_set good_mask s 0 else 1

/-- Follows the spec's words (section 3, "Goodness bit"): the row is good iff
at least one bit position selected by `good_mask` (bit `i` set, matching the
`1<<i` encoding produced by `parse_mask`) carries a `1` in the left-to-right
mask string. -/
def goodRowSpec (good_mask : Nat) (s : List Char) : Bool :=
  (List.range s.length).any
    (fun i => decide (s.getD i '0' = '1' ∧ good_mask &&& (1 <<< i) ≠ 0))

/-! ### Hard-filter expressions: `init_filters` (src/vcfsom.c:674-766).

The character-level scan of the expression produces one `filter_t` per atomic
comparison, incrementing `filts->ntot` once per comparison (line 746).  We
model the expression by the list of atomic predicates the scan produces; the
final limit check (line 765) is `if ( filts->ntot > sizeof(uint64_t)-1 )
error("Uh, too many hard-filters...")`, and `sizeof(uint64_t)` is 8 bytes. -/

/-- Bytes in a `uint64_t`, the value of C `sizeof(uint64_t)`. -/
def sizeof_uint64 : Nat := 8

/-- One parsed atomic predicate (`filter_t`, src/vcfsom.c:47-53): a comparison
type (`FLT_*` key) and a threshold value. -/
structure HardFilter where
  ftype : ℤ
  value : ℚ
deriving DecidableEq

/-- Embeds the outcome of `init_filters` (src/vcfsom.c:674-766) on an
expression whose scan yields the given list of atomic predicates: after the
scan, `ntot` (one increment per comparison, line 746) is checked against
`sizeof(uint64_t)-1` (line 765) and the run aborts when it exceeds it. -/
def init_filters (terms : List HardFilter) : Except String (List HardFilter) :=
  if terms.length > sizeof_uint64 - 1 then Except.error "Uh, too many hard-filters"
  else Except.ok terms

/-! ### Indel classification: `determine_variant_class` (src/vcfsom.c:1049-1062).

The SNP branch and the reference-context computation (`indel_ctx_type`, whose
implementation lives outside this file) are not modelled; the claim concerns
the classification of an indel from its computed context `(nrep, nlen, ndel)`,
which is exactly the code after the `indel_ctx_type` call. -/

/-- Embeds the indel branch of `determine_variant_class`
(src/vcfsom.c:1056-1061): `if (nlen<=1 || nrep<=1) return 2;
if (abs(ndel) % nlen) return 0; return 1;`.  C `abs` on `int` is `Int.natAbs`;
the guard makes `nlen ≥ 2`, for which C `%` agrees with `Int.emod`. -/
def determine_variant_class (nrep nlen ndel : ℤ) : Nat :=
  if nlen ≤ 1 ∨ nrep ≤ 1 then 2
  else if (ndel.natAbs : ℤ) % nlen ≠ 0 then 0
  else 1

/-! ### Percentile scan: `create_dists` (src/vcfsom.c:451-477).

The per-column scratch file holds the column's non-missing values; it is piped
through an ascending numeric sort and re-read with a running counter.  The
loop body (lines 465-470) threads `count` and the two `HUGE_VAL`-initialized
accumulators `scale_min`/`scale_max`; line 471 is the fallback for a
never-crossed high percentile. -/

/-- Loop state of the percentile scan: the running counter `count` and the two
accumulators, with `none` standing for the `HUGE_VAL` initialization. -/
structure ScanSt where
  count : Nat
  smin : Option ℚ
  smax : Option ℚ

/-- Embeds one iteration of the scan loop (src/vcfsom.c:465-470):
`count++; if (scale_min==HUGE_VAL || 100.*count/nall < lo_pctl) scale_min=val;
if (scale_max==HUGE_VAL && 100.*count/nall > hi_pctl) scale_max=val;`. -/
def create_dists_step (nall : Nat) (lo hi : ℚ) (st : ScanSt) (val : ℚ) : ScanSt :=
  { count := st.count + 1
  , smin :=
      if st.smin = none ∨ (100 * ((st.count + 1 : Nat) : ℚ)) / (nall : ℚ) < lo then some val
      else st.smin
  , smax :=
      if st.smax = none ∧ (100 * ((st.count + 1 : Nat) : ℚ)) / (nall : ℚ) > hi then some val
      else st.smax }

/-- Embeds the whole percentile computation of `create_dists`
(src/vcfsom.c:462-471) on the ascending-sorted value list: run the scan loop
from `count = 0` with both accumulators at `HUGE_VAL`, then apply the line-471
fallback `if (scale_max==HUGE_VAL) scale_max = val` (`val` holds the last value
read). -/
def create_dists_scan (nall : Nat) (lo hi : ℚ) (vals : List ℚ) : Option ℚ × Option ℚ :=
  ((vals.foldl (create_dists_step nall lo hi) ⟨0, none, none⟩).smin,
   match (vals.foldl (create_dists_step nall lo hi) ⟨0, none, none⟩).smax with
   | none => vals.getLast?
   | some v => some v)

/-- Follows the amended reading: the last value whose 1-based position `k`
(the scan starts this argument at `k`) satisfies `100·k/nall < lo`. -/
def lastBelowVal (nall : Nat) (lo : ℚ) : Nat → List ℚ → Option ℚ
  | _, [] => none
  | k, v :: rest =>
    match lastBelowVal nall lo (k + 1) rest with
    | some w => some w
    | none => if (100 * (k : ℚ)) / (nall : ℚ) < lo then some v else none

/-- Follows the spec's words for the high percentile: the first value whose
position `k` satisfies `100·k/nall > hi`. -/
def firstAboveVal (nall : Nat) (hi : ℚ) : Nat → List ℚ → Option ℚ
  | _, [] => none
  | k, v :: rest =>
    if (100 * (k : ℚ)) / (nall : ℚ) > hi then some v else firstAboveVal nall hi (k + 1) rest

/-- Follows the claim's words for the low percentile: the first value whose
position `k` satisfies `100·k/nall ≥ lo`. -/
def firstAtOrAboveVal (nall : Nat) (lo : ℚ) : Nat → List ℚ → Option ℚ
  | _, [] => none
  | k, v :: rest =>
    if (100 * (k : ℚ)) / (nall : ℚ) ≥ lo then some v else firstAtOrAboveVal nall lo (k + 1) rest

/-! ### The SOM itself: `som_t` (src/vcfsom.c:22-30), `som_train`
(src/vcfsom.c:824-875), `som_calc_dist` (src/vcfsom.c:876-910), `som_norm`
(src/vcfsom.c:911-923), `som_init1`/`som_init` (src/vcfsom.c:931-1021) and the
score emission of `eval_filters` (src/vcfsom.c:1064-1096).

The flat arrays `w` (weights, `nsom·nbin·nbin·kdim` doubles) and `c` (counts,
`nsom·nbin·nbin` doubles) are modelled as functions from the flat C index; the
per-map cycle counters `t` likewise.  The C library `exp` is an abstract
parameter `expf`.  The PRNG-selected map index `jsom` and the PRNG draws are
passed in as arguments. -/

/-- Embeds `som_t` (src/vcfsom.c:22-30). -/
structure Som where
  nsom : Nat
  nbin : Nat
  kdim : Nat
  nt : Nat
  learn : ℚ
  th : ℚ
  w : Nat → ℚ
  c : Nat → ℚ
  t : Nat → Nat

/-- Flat index of cell `(i, j)` of map `js` in the count grid: the C pointer
`som->c + js*nbin*nbin` advanced by `i*nbin + j`. -/
def cellIdx (som : Som) (js i j : Nat) : Nat :=
  js * (som.nbin * som.nbin) + i * som.nbin + j

/-- Flat index of weight `k` of cell `(i, j)` of map `js`: the C pointer
`som->w + js*nbin*nbin*kdim` advanced by `kdim` per cell in row-major order. -/
def wIdx (som : Som) (js i j k : Nat) : Nat :=
  cellIdx som js i j * som.kdim + k

/-- Running sum `for (k=0; k<n; k++) acc += f k`, as the C loops accumulate. -/
def sumRange (n : Nat) (f : Nat → ℚ) : ℚ :=
  (List.range n).foldl (fun acc k => acc + f k) 0

/-- Squared Euclidean distance of `vec` from the prototype of cell `(i, j)` of
map `js`: the loop `for (k) dist += (vec[k]-ptr[k])*(vec[k]-ptr[k])` used both
by the BMU search (src/vcfsom.c:839-841) and by scoring (src/vcfsom.c:892-894). -/
def sqDist (som : Som) (js i j : Nat) (vec : Nat → ℚ) : ℚ :=
  sumRange som.kdim
    (fun k => (vec k - som.w (wIdx som js i j k)) * (vec k - som.w (wIdx som js i j k)))

/-- Row-major enumeration of the `nbin × nbin` grid, the order of the nested
`for (i) for (j)` loops. -/
def gridPairs (n : Nat) : List (Nat × Nat) :=
  (List.range n).foldr (fun i acc => ((List.range n).map (fun j => (i, j))) ++ acc) []

/-- Embeds the best-matching-unit search of `som_train` (src/vcfsom.c:830-850):
scan map `jsom` in row-major order keeping the first cell realizing the strict
minimum distance (`min_dist` starts at `HUGE_VAL`, modelled by `none`). -/
def som_bmu (som : Som) (jsom : Nat) (vec : Nat → ℚ) : Nat × Nat :=
  ((gridPairs som.nbin).foldl
    (fun acc p =>
      match acc.1 with
      | none => (some (sqDist som jsom p.1 p.2 vec), p.1, p.2)
      | some m =>
        if sqDist som jsom p.1 p.2 vec < m then (some (sqDist som jsom p.1 p.2 vec), p.1, p.2)
        else acc)
    ((none : Option ℚ), 0, 0)).2

/-- The decay factor `exp(-t/som->nt)` with `t = som->t[jsom] * som->nsom`
(src/vcfsom.c:852-855), the cycle counter read before its increment. -/
def trainDecay (expf : ℚ → ℚ) (som : Som) (jsom : Nat) : ℚ :=
  expf (-((som.t jsom * som.nsom : Nat) : ℚ) / (som.nt : ℚ))

/-- The squared neighborhood radius `radius = nbin*exp(-t/nt); radius *= radius`
(src/vcfsom.c:853-854). -/
def trainRadius (expf : ℚ → ℚ) (som : Som) (jsom : Nat) : ℚ :=
  ((som.nbin : ℚ) * trainDecay expf som jsom) * ((som.nbin : ℚ) * trainDecay expf som jsom)

/-- The learning rate `learning_rate = som->learn * exp(-t/nt)`
(src/vcfsom.c:855). -/
def trainRate (expf : ℚ → ℚ) (som : Som) (jsom : Nat) : ℚ :=
  som.learn * trainDecay expf som jsom

/-- The integer squared grid distance `(i-imin)*(i-imin) + (j-jmin)*(j-jmin)`
of cell `(i, j)` from the BMU (src/vcfsom.c:863). -/
def gridD2 (bmu : Nat × Nat) (i j : Nat) : ℤ :=
  ((i : ℤ) - (bmu.1 : ℤ)) * ((i : ℤ) - (bmu.1 : ℤ))
    + ((j : ℤ) - (bmu.2 : ℤ)) * ((j : ℤ) - (bmu.2 : ℤ))

/-- The neighborhood influence `exp(-dist*dist*0.5/radius) * learning_rate`
(src/vcfsom.c:866), where `dist` is the squared grid distance. -/
def influence (expf : ℚ → ℚ) (radius lr : ℚ) (d2 : ℤ) : ℚ :=
  expf (-(d2 : ℚ) * (d2 : ℚ) * (1/2) / radius) * lr

/-- Embeds one training step `som_train` (src/vcfsom.c:824-875) with the
PRNG-selected map `jsom` passed in.  After the BMU search over map `jsom`, the
update loop restarts the weight pointer at `som->w` (line 858) — the start of
MAP 0's weight block — while the count pointer `cnt` keeps the
`som->c + jsom*nbin*nbin` base from line 832; both walk the same `nbin × nbin`
cells.  The weight function therefore changes on flat indices below
`nbin*nbin*kdim` (map 0's block) and the count function on map `jsom`'s block;
cell coordinates and the per-weight lane are recovered from the flat index
exactly as the pointer walk assigns them. -/
def som_train (expf : ℚ → ℚ) (som : Som) (jsom : Nat) (vec : Nat → ℚ) : Som :=
  { som with
    w := fun idx =>
      if idx < som.nbin * som.nbin * som.kdim then
        if (gridD2 (som_bmu som jsom vec) (idx / som.kdim / som.nbin)
              (idx / som.kdim % som.nbin) : ℚ) ≤ trainRadius expf som jsom then
          som.w idx
            + influence expf (trainRadius expf som jsom) (trainRate expf som jsom)
                (gridD2 (som_bmu som jsom vec) (idx / som.kdim / som.nbin)
                  (idx / som.kdim % som.nbin))
              * (vec (idx % som.kdim) - som.w idx)
        else som.w idx
      else som.w idx
    c := fun idx =>
      if jsom * (som.nbin * som.nbin) ≤ idx ∧ idx < (jsom + 1) * (som.nbin * som.nbin) then
        if (gridD2 (som_bmu som jsom vec) ((idx - jsom * (som.nbin * som.nbin)) / som.nbin)
              ((idx - jsom * (som.nbin * som.nbin)) % som.nbin) : ℚ)
            ≤ trainRadius expf som jsom then
          som.c idx
            + influence expf (trainRadius expf som jsom) (trainRate expf som jsom)
                (gridD2 (som_bmu som jsom vec) ((idx - jsom * (som.nbin * som.nbin)) / som.nbin)
                  ((idx - jsom * (som.nbin * som.nbin)) % som.nbin))
        else som.c idx
      else som.c idx
    t := fun m => if m = jsom then som.t m + 1 else som.t m }

/-- Embeds the `min_dist` accumulation of `som_calc_dist`: `if (dist < min_dist)
min_dist = dist` against a `HUGE_VAL`-initialized accumulator. -/
def optMinLt (md : Option ℚ) (d : ℚ) : Option ℚ :=
  match md with
  | none => some d
  | some m => if d < m then some d else some m

/-- Embeds the inner loops of `som_calc_dist` (src/vcfsom.c:885-902) for one
map: the minimum squared distance over the cells whose count passes
`*cnt >= som->th`, `HUGE_VAL` (`none`) if no cell passes. -/
def mapMinDist (som : Som) (js : Nat) (vec : Nat → ℚ) : Option ℚ :=
  (gridPairs som.nbin).foldl
    (fun md p =>
      if som.th ≤ som.c (cellIdx som js p.1 p.2) then optMinLt md (sqDist som js p.1 p.2 vec)
      else md)
    none

/-- Embeds `som_calc_dist` (src/vcfsom.c:876-910): fold the per-map minima with
`if (min_som_dist > min_dist) min_som_dist = min_dist`, starting from
`HUGE_VAL`. -/
def som_calc_dist (som : Som) (vec : Nat → ℚ) : Option ℚ :=
  (List.range som.nsom).foldl
    (fun acc js =>
      match acc, mapMinDist som js vec with
      | none, md => md
      | some a, none => some a
      | some a, some d => if a > d then some d else some a)
    none

/-- Embeds the maximum computation of `som_norm` (src/vcfsom.c:916-919) for map
`j`: `max = 0; for (i=0;i<n2;i++) if (max < som->c[i]) max = c[i]` — the
comparison reads the GLOBAL array head `som->c[i]` (map 0's cells) while the
assignment reads map `j`'s cell `c[i]`. -/
def som_norm_max (nbin : Nat) (c : Nat → ℚ) (j : Nat) : ℚ :=
  (List.range (nbin * nbin)).foldl
    (fun mx i => if mx < c i then c (j * (nbin * nbin) + i) else mx) 0

/-- Embeds one iteration of the outer loop of `som_norm` (src/vcfsom.c:914-922):
compute the map's `max` and, when non-zero, divide the map's block by it. -/
def som_norm_step (nbin : Nat) (c : Nat → ℚ) (j : Nat) : Nat → ℚ :=
  if som_norm_max nbin c j = 0 then c
  else fun idx =>
    if j * (nbin * nbin) ≤ idx ∧ idx < (j + 1) * (nbin * nbin) then
      c idx / som_norm_max nbin c j
    else c idx

/-- Embeds `som_norm` (src/vcfsom.c:911-923): the maps are processed in order
`j = 0, …, nsom-1`, each iteration mutating the count array in place. -/
def som_norm (som : Som) : Som :=
  { som with c := (List.range som.nsom).foldl (som_norm_step som.nbin) som.c }

/-- Embeds the score emitted by `eval_filters` (src/vcfsom.c:1081,1092):
`max_dist = som->kdim` and `score = dist/max_dist`; the `HUGE_VAL` sentinel
(`none`) stays a sentinel under the division. -/
def eval_filters_score (som : Som) (vec : Nat → ℚ) : Option ℚ :=
  (som_calc_dist som vec).map (fun d => d / (som.kdim : ℚ))

/-- Follows the spec's words: the minimum of a list of distances, `none` when
the list is empty (no sufficiently-populated cell). -/
def listMin : List ℚ → Option ℚ
  | [] => none
  | x :: xs =>
    match listMin xs with
    | none => some x
    | some m => some (min x m)

/-- Follows the spec's words: the list of squared distances from `vec` to the
prototypes of the cells of map `js` whose count passes the threshold. -/
def perMapActive (som : Som) (js : Nat) (vec : Nat → ℚ) : List ℚ :=
  (gridPairs som.nbin).filterMap
    (fun p =>
      if som.th ≤ som.c (cellIdx som js p.1 p.2) then some (sqDist som js p.1 p.2 vec)
      else none)

/-- Follows the spec's words: all activated squared distances across the `nsom`
maps. -/
def activeDists (som : Som) (vec : Nat → ℚ) : List ℚ :=
  (List.range som.nsom).foldr (fun js acc => perMapActive som js vec ++ acc) []

/-- Combination of two `HUGE_VAL`-sentineled minima. -/
def olMin : Option ℚ → Option ℚ → Option ℚ
  | none, b => b
  | some a, none => some a
  | some a, some b => some (min a b)

/-- Embeds the `nt` clamp of `som_init1` (src/vcfsom.c:939):
`if (!som->nt || som->nt > args->ngood) som->nt = args->ngood`. -/
def som_init1_nt (nt ngood : Nat) : Nat :=
  if nt = 0 ∨ ngood < nt then ngood else nt

/-- C conversion from `double` to `int`: truncation toward zero. -/
def dbl2int (q : ℚ) : ℤ := q.num / (q.den : ℤ)

/-- Embeds the reservoir capacities of `som_init` (src/vcfsom.c:955-956):
`ngood_fixed_max = good_som->nt * (1-args->nt_learn_frac)` and
`ngood_learn_max = good_som->nt * args->nt_learn_frac`, where `good_som->nt`
is the value already clamped by `som_init1`. -/
def som_init_caps (nt ngood : Nat) (f : ℚ) : ℤ × ℤ :=
  (dbl2int ((som_init1_nt nt ngood : ℚ) * (1 - f)),
   dbl2int ((som_init1_nt nt ngood : ℚ) * f))

/-- The glibc `RAND_MAX`, the divisor of every `random()/RAND_MAX` draw. -/
def RAND_MAX : Nat := 2 ^ 31 - 1

/-- Embeds the replacement slot of a full reservoir (src/vcfsom.c:990,1003):
`i = (double)(cap-1)*random()/RAND_MAX`, the PRNG draw `r` passed in, the
real-valued product truncated to `int`; on naturals this is floor division.
The spec models the normalized draw `U = r/RAND_MAX` as uniform on `[0,1)`. -/
def reservoir_slot (cap r : Nat) : Nat :=
  (cap - 1) * r / RAND_MAX

/-- Embeds one admission into a reservoir of capacity `cap` during the
`som_init` sampling pass (src/vcfsom.c:984-992 and 996-1005): while the store
is not full the vector is appended at the fill index; once full it overwrites
the slot `(cap-1)*r/RAND_MAX`. -/
def som_init_reservoir_step (cap : Nat) (store : List ℚ) (r : Nat) (x : ℚ) : List ℚ :=
  if store.length < cap then store ++ [x]
  else store.set (reservoir_slot cap r) x

/-- Concrete SOM exhibiting the `som_norm` cross-map maximum: 2 maps on a
`2 × 2` grid with counts `[1,1,1,2]` (map 0) and `[3,4,1,1]` (map 1). -/
def somNormEx : Som :=
  { nsom := 2, nbin := 2, kdim := 1, nt := 1, learn := 1/10, th := 1/5
  , w := fun _ => 0
  , c := fun idx => if idx = 3 then 2 else if idx = 4 then 3 else if idx = 5 then 4 else 1
  , t := fun _ => 0 }

/-- Concrete SOM for the wrong-map training update: 2 maps on a `1 × 1` grid in
dimension 1, all weights and counts 0. -/
def somTrainEx : Som :=
  { nsom := 2, nbin := 1, kdim := 1, nt := 1, learn := 1/10, th := 1/5
  , w := fun _ => 0, c := fun _ => 0, t := fun _ => 0 }

/-- Constant input vector 1 for the wrong-map training update. -/
def vecOne : Nat → ℚ := fun _ => 1

/-- Concrete SOM for the influence-formula witness: 1 map on a `2 × 2` grid in
dimension 1, all weights and counts 0. -/
def somInflEx : Som :=
  { nsom := 1, nbin := 2, kdim := 1, nt := 1, learn := 1/10, th := 1/5
  , w := fun _ => 0, c := fun _ => 0, t := fun _ => 0 }

/-- Constant input vector 0 for the influence-formula witness. -/
def vecZero : Nat → ℚ := fun _ => 0

/-- Concrete SOM for the score-rescaling counterexample: 1 map, one cell,
dimension 2, prototype at the origin, count 1 (above the threshold 1/5). -/
def somScoreEx : Som :=
  { nsom := 1, nbin := 1, kdim := 2, nt := 1, learn := 1/10, th := 1/5
  , w := fun _ => 0, c := fun _ => 1, t := fun _ => 0 }

/-- C5 counterexample: with `nall = 2`, `lo_pctl = 60` and sorted values
`[10, 20]`, the claim's rule ("the first value at which `100·k/nall ≥ lo`")
picks 20 (`k = 2`), but the scan keeps `scale_min = 10`: the accumulator is
only overwritten while `100·k/nall < lo` still holds. -/
theorem create_dists_scale_min_off_by_one :
    (create_dists_scan 2 60 (999/10) [10, 20]).1 = some 10
    ∧ firstAtOrAboveVal 2 60 1 [10, 20] = some 20 := by
  constructor
  · norm_num [create_dists_scan, create_dists_step]
    simp
  · norm_num [firstAtOrAboveVal]

/-- C2: the reader classifies a row as good (per-row mask 2) iff some bit
position selected by `good_mask` carries a `1` in the mask string.  This fails:
`str_mask_set` tests `mask & (i<<1)` — i.e. `mask AND 2·i` — instead of
`mask & (1<<i)`, so with the default good mask `010` (bit 1, value 2) the row
`0001` is classified good (position 3 gives `2 & 6 ≠ 0`) although its selected
bit (position 1) is `0`. -/
theorem str_mask_set_wrong_bit_test :
    annots_reader_mask (parse_mask ['0','1','0']) ['0','0','0','1'] = 2
    ∧ goodRowSpec (parse_mask ['0','1','0']) ['0','0','0','1'] = false := by
  decide

/-- C3: parsing is claimed to succeed for up to 63 atomic predicates and to be
fatal only above 63.  The code compares `ntot` against `sizeof(uint64_t)-1`,
which is 7 (bytes, not bits), so an expression with 8 predicates — well under
the claimed 63 — is already fatal, while 7 still parse. -/
theorem init_filters_limit_is_seven :
    (init_filters (List.replicate 8 ⟨0, 0⟩)).isOk = false
    ∧ (8 : Nat) ≤ 63
    ∧ (init_filters (List.replicate 7 ⟨0, 0⟩)).isOk = true := by
  decide

/-- C4 counterexample: the claim requires class 2 (not-applicable) whenever
`ndel = 0`, but at `(nrep, nlen, ndel) = (2, 2, 0)` the code has no `ndel`
test and returns 1 (repeat-consistent), since `|0| mod 2 = 0`. -/
theorem determine_variant_class_ndel_zero :
    determine_variant_class 2 2 0 = 1 ∧ (1 : Nat) ≠ 2 := by
  decide

/-- C4 amended: `ndel` plays no role in the not-applicable test.  The class is
2 iff `nlen ≤ 1` or `nrep ≤ 1`; otherwise it is 1 iff `|ndel| mod nlen = 0`
(including `ndel = 0`) and 0 otherwise. -/
theorem determine_variant_class_spec (nrep nlen ndel : ℤ) :
    (nlen ≤ 1 ∨ nrep ≤ 1 → determine_variant_class nrep nlen ndel = 2)
    ∧ (1 < nlen → 1 < nrep → (ndel.natAbs : ℤ) % nlen = 0 →
        determine_variant_class nrep nlen ndel = 1)
    ∧ (1 < nlen → 1 < nrep → (ndel.natAbs : ℤ) % nlen ≠ 0 →
        determine_variant_class nrep nlen ndel = 0) := by
  refine ⟨fun h => ?_, fun h1 h2 h3 => ?_, fun h1 h2 h3 => ?_⟩
  · simp [determine_variant_class, h]
  · have hno : ¬ (nlen ≤ 1 ∨ nrep ≤ 1) := by omega
    unfold determine_variant_class
    rw [if_neg hno, if_neg (fun hc => hc h3)]
  · have hno : ¬ (nlen ≤ 1 ∨ nrep ≤ 1) := by omega
    unfold determine_variant_class
    rw [if_neg hno, if_pos h3]

/-- Witness for the amended C4 theorem at the concrete context
`(nrep, nlen, ndel) = (2, 2, 0)`. -/
theorem determine_variant_class_spec_witness :
    ((1 : ℤ) < 2 ∧ ((0 : ℤ).natAbs : ℤ) % 2 = 0)
    ∧ determine_variant_class 2 2 0 = 1 :=
  ⟨by decide, (determine_variant_class_spec 2 2 0).2.1 (by decide) (by decide) (by decide)⟩

lemma create_dists_foldl_smin (nall : Nat) (lo hi : ℚ) :
    ∀ (l : List ℚ) (c : Nat) (m : ℚ) (s : Option ℚ),
      (l.foldl (create_dists_step nall lo hi) ⟨c, some m, s⟩).smin
        = some ((lastBelowVal nall lo (c + 1) l).getD m) := by
  intro l
  induction l with
  | nil => intro c m s; rfl
  | cons v rest ih =>
    intro c m s
    have hcast : ((c + 1 : Nat) : ℚ) = (c : ℚ) + 1 := by push_cast; ring
    have hstep :
        create_dists_step nall lo hi ⟨c, some m, s⟩ v
          = ⟨c + 1,
             some (if 100 * ((c : ℚ) + 1) / (nall : ℚ) < lo then v else m),
             if s = none ∧ hi < 100 * ((c : ℚ) + 1) / (nall : ℚ) then some v else s⟩ := by
      simp only [create_dists_step, hcast, gt_iff_lt]
      by_cases hC : 100 * ((c : ℚ) + 1) / (nall : ℚ) < lo <;> simp [hC]
    rw [List.foldl_cons, hstep, ih]
    cases hrest : lastBelowVal nall lo (c + 1 + 1) rest with
    | some w => simp [lastBelowVal, hrest]
    | none =>
      by_cases hC : 100 * ((c : ℚ) + 1) / (nall : ℚ) < lo <;>
        simp [lastBelowVal, hrest, hC]

lemma create_dists_foldl_smax_some (nall : Nat) (lo hi : ℚ) :
    ∀ (l : List ℚ) (c : Nat) (s : Option ℚ) (w : ℚ),
      (l.foldl (create_dists_step nall lo hi) ⟨c, s, some w⟩).smax = some w := by
  intro l
  induction l with
  | nil => intro c s w; rfl
  | cons v rest ih =>
    intro c s w
    have hstep :
        create_dists_step nall lo hi ⟨c, s, some w⟩ v
          = ⟨c + 1,
             if s = none ∨ 100 * ((c : ℚ) + 1) / (nall : ℚ) < lo then some v else s,
             some w⟩ := by
      simp [create_dists_step]
    rw [List.foldl_cons, hstep]
    exact ih (c + 1) _ w

lemma create_dists_foldl_smax_none (nall : Nat) (lo hi : ℚ) :
    ∀ (l : List ℚ) (c : Nat) (s : Option ℚ),
      (l.foldl (create_dists_step nall lo hi) ⟨c, s, none⟩).smax
        = firstAboveVal nall hi (c + 1) l := by
  intro l
  induction l with
  | nil => intro c s; rfl
  | cons v rest ih =>
    intro c s
    by_cases h : hi < 100 * ((c : ℚ) + 1) / (nall : ℚ)
    · have hstep :
          create_dists_step nall lo hi ⟨c, s, none⟩ v
            = ⟨c + 1,
               if s = none ∨ 100 * ((c : ℚ) + 1) / (nall : ℚ) < lo then some v else s,
               some v⟩ := by
        simp [create_dists_step, h]
      rw [List.foldl_cons, hstep, create_dists_foldl_smax_some]
      simp [firstAboveVal, h]
    · have hstep :
          create_dists_step nall lo hi ⟨c, s, none⟩ v
            = ⟨c + 1,
               if s = none ∨ 100 * ((c : ℚ) + 1) / (nall : ℚ) < lo then some v else s,
               none⟩ := by
        simp [create_dists_step, h]
      rw [List.foldl_cons, hstep, ih]
      simp [firstAboveVal, h]

/-- C5 amended: `scale_max` is as the claim states it (first value at which
`100·k/nall > hi_pctl`, last observed value when never crossed), but
`scale_min` is the LAST value at which `100·k/nall < lo_pctl` — the value one
position before the claim's "first value at which `100·k/nall ≥ lo_pctl`" —
falling back to the first observed value when even position 1 is at or above
the low percentile. -/
theorem create_dists_scan_spec (nall : Nat) (lo hi : ℚ) (vals : List ℚ) :
    create_dists_scan nall lo hi vals
      = ((lastBelowVal nall lo 1 vals).orElse (fun _ => vals.head?),
         (firstAboveVal nall hi 1 vals).orElse (fun _ => vals.getLast?)) := by
  cases vals with
  | nil => rfl
  | cons v rest =>
    unfold create_dists_scan
    rw [List.foldl_cons]
    have hsmin :
        ∀ s : Option ℚ,
          (rest.foldl (create_dists_step nall lo hi) ⟨1, some v, s⟩).smin
            = (lastBelowVal nall lo 1 (v :: rest)).orElse (fun _ => (v :: rest).head?) := by
      intro s
      rw [create_dists_foldl_smin]
      cases hrest : lastBelowVal nall lo (1 + 1) rest with
      | some w => simp [lastBelowVal, hrest]
      | none =>
        by_cases hc : (100 : ℚ) / (nall : ℚ) < lo <;>
          simp [lastBelowVal, hrest, hc]
    by_cases h1 : hi < (100 : ℚ) / (nall : ℚ)
    · have hstep :
          create_dists_step nall lo hi ⟨0, none, none⟩ v = ⟨1, some v, some v⟩ := by
        simp [create_dists_step, h1]
      rw [hstep]
      simp only [Prod.mk.injEq]
      refine ⟨hsmin (some v), ?_⟩
      rw [create_dists_foldl_smax_some]
      simp [firstAboveVal, h1]
    · have hstep :
          create_dists_step nall lo hi ⟨0, none, none⟩ v = ⟨1, some v, none⟩ := by
        simp [create_dists_step, h1]
      rw [hstep]
      simp only [Prod.mk.injEq]
      refine ⟨hsmin none, ?_⟩
      rw [create_dists_foldl_smax_none]
      cases hfa : firstAboveVal nall hi (1 + 1) rest with
      | some w => simp [firstAboveVal, h1, hfa]
      | none => simp [firstAboveVal, h1, hfa]

/-- C6: after normalization every map's counts are claimed to lie in `[0,1]`
with maximum 0 or 1.  This fails for `nsom > 1`: the maximum loop of `som_norm`
compares against `som->c[i]` — map 0's (already normalized) cells — while
assigning the current map's `c[i]`, so map 1 of `somNormEx` (counts
`[3,4,1,1]`) is divided by 3 instead of its own maximum 4 and ends with a
normalized count of `4/3 > 1`. -/
theorem som_norm_cross_map_max :
    (som_norm somNormEx).c 5 = 4/3 ∧ ¬ (som_norm somNormEx).c 5 ≤ 1 := by
  have h : (som_norm somNormEx).c 5 = 4/3 := by
    norm_num [som_norm, som_norm_step, som_norm_max, somNormEx,
      List.range_succ, List.range_zero]
  exact ⟨h, by rw [h]; norm_num⟩

/-- C10: whenever the configured training budget `nt` is zero or exceeds the
number of good sites `ngood`, `som_init1` clamps it to `ngood`, and the two
reservoir capacities computed by `som_init` use the clamped value. -/
theorem som_init_caps_clamped (nt ngood : Nat) (f : ℚ) (h : nt = 0 ∨ ngood < nt) :
    som_init1_nt nt ngood = ngood
    ∧ som_init_caps nt ngood f
        = (dbl2int ((ngood : ℚ) * (1 - f)), dbl2int ((ngood : ℚ) * f)) := by
  have h1 : som_init1_nt nt ngood = ngood := by
    unfold som_init1_nt
    rw [if_pos h]
  exact ⟨h1, by unfold som_init_caps; rw [h1]⟩

/-- Witness for the C10 theorem: configured budget 100 against 7 good sites and
learn fraction 3/10; the capacities are computed from the clamped budget 7
(and evaluate to `⌊4.9⌋ = 4` and `⌊2.1⌋ = 2`). -/
theorem som_init_caps_clamped_witness :
    (100 = 0 ∨ 7 < 100)
    ∧ (som_init1_nt 100 7 = 7
       ∧ som_init_caps 100 7 (3/10)
           = (dbl2int ((7 : ℚ) * (1 - 3/10)), dbl2int ((7 : ℚ) * (3/10))))
    ∧ som_init_caps 100 7 (3/10) = (4, 2) := by
  have h := som_init_caps_clamped 100 7 (3/10) (Or.inr (by norm_num))
  refine ⟨Or.inr (by norm_num), h, ?_⟩
  rw [h.2]
  norm_num [dbl2int]

/-- C8: once a reservoir of capacity `cap` is full, an admitted vector
overwrites exactly the slot `floor(U·(cap-1))` with `U = r/RAND_MAX` the
normalized PRNG draw (`U ∈ [0,1)`, i.e. `r < RAND_MAX`, per the spec's model of
the draw), so for capacities of at least 2 the computed slot is strictly below
`cap - 1` and the last slot keeps its value. -/
theorem som_init_reservoir_keeps_last (cap r : Nat) (store : List ℚ) (x d : ℚ)
    (hfull : store.length = cap) (hcap : 2 ≤ cap) (hr : r < RAND_MAX) :
    som_init_reservoir_step cap store r x = store.set (reservoir_slot cap r) x
    ∧ reservoir_slot cap r < cap - 1
    ∧ (som_init_reservoir_step cap store r x).getD (cap - 1) d
        = store.getD (cap - 1) d := by
  have hnotlt : ¬ store.length < cap := by omega
  have hstep : som_init_reservoir_step cap store r x = store.set (reservoir_slot cap r) x := by
    unfold som_init_reservoir_step
    rw [if_neg hnotlt]
  have hslot : reservoir_slot cap r < cap - 1 := by
    unfold reservoir_slot
    have hpos : 0 < RAND_MAX := by norm_num [RAND_MAX]
    rw [Nat.div_lt_iff_lt_mul hpos]
    exact mul_lt_mul_of_pos_left hr (by omega : 0 < cap - 1)
  refine ⟨hstep, hslot, ?_⟩
  rw [hstep]
  have hne : reservoir_slot cap r ≠ cap - 1 := Nat.ne_of_lt hslot
  simp [List.getD_eq_getElem?_getD, List.getElem?_set_ne hne]

/-- Witness for the C8 theorem: a full reservoir of capacity 7 and the draw
`r = 1000`; the replacement lands in slot `6·1000/RAND_MAX = 0`, and slot 6 is
untouched. -/
theorem som_init_reservoir_keeps_last_witness :
    ((List.replicate 7 (0 : ℚ)).length = 7 ∧ 2 ≤ 7 ∧ 1000 < RAND_MAX)
    ∧ (som_init_reservoir_step 7 (List.replicate 7 (0 : ℚ)) 1000 1
          = (List.replicate 7 (0 : ℚ)).set (reservoir_slot 7 1000) 1
       ∧ reservoir_slot 7 1000 < 7 - 1
       ∧ (som_init_reservoir_step 7 (List.replicate 7 (0 : ℚ)) 1000 1).getD (7 - 1) 0
           = (List.replicate 7 (0 : ℚ)).getD (7 - 1) 0) :=
  ⟨⟨by decide, by decide, by norm_num [RAND_MAX]⟩,
   som_init_reservoir_keeps_last 7 1000 (List.replicate 7 (0 : ℚ)) 1 0
     (by decide) (by decide) (by norm_num [RAND_MAX])⟩

lemma optMinLt_eq_olMin (md : Option ℚ) (d : ℚ) : optMinLt md d = olMin md (some d) := by
  cases md with
  | none => rfl
  | some m =>
    show (if d < m then some d else some m) = some (min m d)
    by_cases h : d < m
    · rw [if_pos h, min_eq_right (le_of_lt h)]
    · rw [if_neg h, min_eq_left (le_of_not_lt h)]

lemma listMin_cons (x : ℚ) (xs : List ℚ) : listMin (x :: xs) = olMin (some x) (listMin xs) := by
  cases h : listMin xs <;> simp [listMin, h, olMin]

lemma olMin_none_right (a : Option ℚ) : olMin a none = a := by
  cases a <;> rfl

lemma olMin_assoc (a b c : Option ℚ) : olMin (olMin a b) c = olMin a (olMin b c) := by
  cases a <;> cases b <;> cases c <;> simp [olMin, min_assoc]

lemma listMin_append (l1 l2 : List ℚ) :
    listMin (l1 ++ l2) = olMin (listMin l1) (listMin l2) := by
  induction l1 with
  | nil => rfl
  | cons x xs ih =>
    rw [List.cons_append, listMin_cons, ih, listMin_cons, olMin_assoc]

lemma mapMinDist_foldl (som : Som) (js : Nat) (vec : Nat → ℚ) :
    ∀ (l : List (Nat × Nat)) (md : Option ℚ),
      l.foldl
        (fun md p =>
          if som.th ≤ som.c (cellIdx som js p.1 p.2) then optMinLt md (sqDist som js p.1 p.2 vec)
          else md) md
        = olMin md (listMin (l.filterMap
            (fun p =>
              if som.th ≤ som.c (cellIdx som js p.1 p.2) then some (sqDist som js p.1 p.2 vec)
              else none))) := by
  intro l
  induction l with
  | nil =>
    intro md
    rw [List.foldl_nil, List.filterMap_nil]
    exact (olMin_none_right md).symm
  | cons p l' ih =>
    intro md
    rw [List.foldl_cons]
    by_cases h : som.th ≤ som.c (cellIdx som js p.1 p.2)
    · rw [if_pos h, ih, optMinLt_eq_olMin, olMin_assoc,
        List.filterMap_cons_some (by rw [if_pos h]), listMin_cons]
    · rw [if_neg h, ih, List.filterMap_cons_none (by rw [if_neg h])]

lemma mapMinDist_eq_listMin (som : Som) (js : Nat) (vec : Nat → ℚ) :
    mapMinDist som js vec = listMin (perMapActive som js vec) := by
  unfold mapMinDist perMapActive
  rw [mapMinDist_foldl]
  rfl

lemma som_calc_dist_foldl (som : Som) (vec : Nat → ℚ) :
    ∀ (l : List Nat) (acc : Option ℚ),
      l.foldl
        (fun acc js =>
          match acc, mapMinDist som js vec with
          | none, md => md
          | some a, none => some a
          | some a, some d => if a > d then some d else some a) acc
        = olMin acc (listMin (l.foldr (fun js acc2 => perMapActive som js vec ++ acc2) [])) := by
  intro l
  induction l with
  | nil =>
    intro acc
    rw [List.foldl_nil, List.foldr_nil]
    exact (olMin_none_right acc).symm
  | cons js l' ih =>
    intro acc
    rw [List.foldl_cons, List.foldr_cons, ih, listMin_append, ← mapMinDist_eq_listMin,
      ← olMin_assoc]
    congr 1
    cases acc with
    | none => cases h : mapMinDist som js vec <;> simp [olMin]
    | some a =>
      cases h : mapMinDist som js vec with
      | none => simp [olMin]
      | some d =>
        show (if a > d then some d else some a) = some (min a d)
        by_cases had : a > d
        · rw [if_pos had, min_eq_right (le_of_lt had)]
        · rw [if_neg had, min_eq_left (le_of_not_lt had)]

lemma som_calc_dist_eq_listMin (som : Som) (vec : Nat → ℚ) :
    som_calc_dist som vec = listMin (activeDists som vec) := by
  unfold som_calc_dist activeDists
  rw [som_calc_dist_foldl]
  rfl

/-- C1 counterexample: a 1-map, 1-cell SOM in dimension 2 with prototype at the
origin and an activated cell; at the input vector `(1,1)` the per-map
minimum-distance query returns 2, but the sites file receives
`score = dist/max_dist = 2/kdim = 1`: the emitted score IS a rescaling. -/
theorem eval_filters_score_rescaled :
    som_calc_dist somScoreEx vecOne = some 2
    ∧ eval_filters_score somScoreEx vecOne = some 1
    ∧ eval_filters_score somScoreEx vecOne ≠ som_calc_dist somScoreEx vecOne := by
  have h1 : som_calc_dist somScoreEx vecOne = some 2 := by
    norm_num [som_calc_dist, mapMinDist, somScoreEx, vecOne, gridPairs, cellIdx, sqDist,
      sumRange, wIdx, optMinLt, List.range_succ]
  have h2 : eval_filters_score somScoreEx vecOne = some 1 := by
    rw [eval_filters_score, h1]
    norm_num [somScoreEx]
  refine ⟨h1, h2, ?_⟩
  rw [h1, h2]
  norm_num

/-- C1 amended: the score emitted to the sites file equals the minimum squared
distance over the sufficiently-populated cells of all maps DIVIDED by `kdim`
(the SOM dimension, i.e. the largest possible squared distance between scaled
vectors), not the raw value of the per-map minimum-distance query; the
`HUGE_VAL` sentinel (no activated cell) survives the division. -/
theorem eval_filters_score_spec (som : Som) (vec : Nat → ℚ) :
    eval_filters_score som vec
      = (listMin (activeDists som vec)).map (fun d => d / (som.kdim : ℚ)) := by
  unfold eval_filters_score
  rw [som_calc_dist_eq_listMin]

lemma somTrainEx_bmu : som_bmu somTrainEx 1 vecOne = (0, 0) := rfl

/-- C7: training a vector with selected map `jsom = 1` (of 2 maps) is claimed
to modify only map 1's weights and counts.  Instead, because the update loop
resets the weight pointer to `som->w` (src/vcfsom.c:858), map 0's weight
(flat index 0) changes while map 1's weight (flat index 1) is untouched; the
hypothesis `0 < expf 0` holds for the C library `exp`. -/
theorem som_train_wrong_map (expf : ℚ → ℚ) (hpos : 0 < expf 0) :
    (som_train expf somTrainEx 1 vecOne).w 0 ≠ somTrainEx.w 0
    ∧ (som_train expf somTrainEx 1 vecOne).w 1 = somTrainEx.w 1 := by
  have hrad : (0 : ℚ) ≤ trainRadius expf somTrainEx 1 := by
    unfold trainRadius
    exact mul_self_nonneg _
  constructor
  · have hw : (som_train expf somTrainEx 1 vecOne).w 0
        = influence expf (trainRadius expf somTrainEx 1) (trainRate expf somTrainEx 1) 0 := by
      simp only [som_train, somTrainEx_bmu]
      norm_num [vecOne, gridD2, hrad, show somTrainEx.nbin = 1 from rfl,
        show somTrainEx.kdim = 1 from rfl, show somTrainEx.w 0 = 0 from rfl]
    have hinfl : (0 : ℚ)
        < influence expf (trainRadius expf somTrainEx 1) (trainRate expf somTrainEx 1) 0 := by
      have h : influence expf (trainRadius expf somTrainEx 1) (trainRate expf somTrainEx 1) 0
          = expf 0 * ((1/10) * expf 0) := by
        unfold influence trainRate trainDecay
        norm_num [somTrainEx]
      rw [h]
      exact mul_pos hpos (mul_pos (by norm_num) hpos)
    rw [hw]
    show influence expf (trainRadius expf somTrainEx 1) (trainRate expf somTrainEx 1) 0 ≠ 0
    exact ne_of_gt hinfl
  · simp only [som_train]
    norm_num [somTrainEx]

/-- Witness for the C7 theorem: the concrete positive exponential
`expf = fun _ => 1`. -/
theorem som_train_wrong_map_witness :
    (0 : ℚ) < (fun _ : ℚ => (1 : ℚ)) 0
    ∧ ((som_train (fun _ : ℚ => 1) somTrainEx 1 vecOne).w 0 ≠ somTrainEx.w 0
       ∧ (som_train (fun _ : ℚ => 1) somTrainEx 1 vecOne).w 1 = somTrainEx.w 1) :=
  ⟨one_pos, som_train_wrong_map (fun _ : ℚ => 1) one_pos⟩

lemma neg_sq_half_div (a r : ℚ) : -a * a * (1/2) / r = -(a * a) / (2 * r) := by
  have h1 : -a * a * (1/2 : ℚ) = -(a * a) / 2 := by ring
  rw [h1, div_div]

/-- C9: in every neighborhood update of `som_train`, a cell at squared grid
distance `d2 = (i-i*)² + (j-j*)²` within the radius receives influence
`exp(-(d2·d2)/(2·radius_sq)) · lr` — the FOURTH power of the grid distance in
the Gaussian numerator — its count (in the selected map's block) increasing by
the influence, and each updated weight lane (in the block starting at `som->w`,
grid offset `(i,j)`, lane `k`) moving by `influence · (v[k] - w[k])`. -/
theorem som_train_influence (expf : ℚ → ℚ) (som : Som) (jsom i j k : Nat) (vec : Nat → ℚ)
    (hi : i < som.nbin) (hj : j < som.nbin) (hk : k < som.kdim)
    (hd : ((gridD2 (som_bmu som jsom vec) i j : ℤ) : ℚ) ≤ trainRadius expf som jsom) :
    (som_train expf som jsom vec).c (cellIdx som jsom i j)
        = som.c (cellIdx som jsom i j)
          + expf (-(((gridD2 (som_bmu som jsom vec) i j : ℤ) : ℚ)
                      * ((gridD2 (som_bmu som jsom vec) i j : ℤ) : ℚ))
                    / (2 * trainRadius expf som jsom))
            * trainRate expf som jsom
    ∧ (som_train expf som jsom vec).w ((i * som.nbin + j) * som.kdim + k)
        = som.w ((i * som.nbin + j) * som.kdim + k)
          + expf (-(((gridD2 (som_bmu som jsom vec) i j : ℤ) : ℚ)
                      * ((gridD2 (som_bmu som jsom vec) i j : ℤ) : ℚ))
                    / (2 * trainRadius expf som jsom))
            * trainRate expf som jsom
            * (vec k - som.w ((i * som.nbin + j) * som.kdim + k)) := by
  have hn : 0 < som.nbin := by omega
  have hkd : 0 < som.kdim := by omega
  have hcell : i * som.nbin + j < som.nbin * som.nbin := by
    calc i * som.nbin + j < i * som.nbin + som.nbin := by omega
      _ = (i + 1) * som.nbin := by ring
      _ ≤ som.nbin * som.nbin := Nat.mul_le_mul_right _ hi
  have hdiv2 : (i * som.nbin + j) / som.nbin = i := by
    rw [Nat.mul_comm i som.nbin, Nat.mul_add_div hn, Nat.div_eq_of_lt hj]
    omega
  have hmod2 : (i * som.nbin + j) % som.nbin = j := by
    rw [Nat.mul_comm i som.nbin, Nat.mul_add_mod, Nat.mod_eq_of_lt hj]
  constructor
  · have hcc : cellIdx som jsom i j
        = jsom * (som.nbin * som.nbin) + (i * som.nbin + j) := by
      unfold cellIdx
      ring
    have hle : jsom * (som.nbin * som.nbin) ≤ cellIdx som jsom i j := by
      rw [hcc]
      omega
    have hlt : cellIdx som jsom i j < (jsom + 1) * (som.nbin * som.nbin) := by
      have hexp : (jsom + 1) * (som.nbin * som.nbin)
          = jsom * (som.nbin * som.nbin) + som.nbin * som.nbin := by ring
      rw [hcc, hexp]
      omega
    have hsub : cellIdx som jsom i j - jsom * (som.nbin * som.nbin) = i * som.nbin + j := by
      rw [hcc]
      omega
    show (som_train expf som jsom vec).c (cellIdx som jsom i j) = _
    simp only [som_train]
    rw [if_pos ⟨hle, hlt⟩, hsub, hdiv2, hmod2, if_pos hd]
    unfold influence
    rw [neg_sq_half_div]
  · have hwlt : (i * som.nbin + j) * som.kdim + k < som.nbin * som.nbin * som.kdim := by
      calc (i * som.nbin + j) * som.kdim + k
          < (i * som.nbin + j) * som.kdim + som.kdim := by omega
        _ = (i * som.nbin + j + 1) * som.kdim := by ring
        _ ≤ som.nbin * som.nbin * som.kdim := Nat.mul_le_mul_right _ hcell
    have hdivk : ((i * som.nbin + j) * som.kdim + k) / som.kdim = i * som.nbin + j := by
      rw [Nat.mul_comm (i * som.nbin + j) som.kdim, Nat.mul_add_div hkd, Nat.div_eq_of_lt hk]
      omega
    have hmodk : ((i * som.nbin + j) * som.kdim + k) % som.kdim = k := by
      rw [Nat.mul_comm (i * som.nbin + j) som.kdim, Nat.mul_add_mod, Nat.mod_eq_of_lt hk]
    show (som_train expf som jsom vec).w ((i * som.nbin + j) * som.kdim + k) = _
    simp only [som_train]
    rw [if_pos hwlt, hdivk, hdiv2, hmod2, hmodk, if_pos hd]
    unfold influence
    rw [neg_sq_half_div]

/-- Witness for the C9 theorem: `somInflEx` (1 map, `2 × 2` grid, dimension 1,
all-zero weights and counts) with `expf = fun _ => 1` and the zero input
vector; the BMU is `(0,0)`, cell `(1,1)` sits at squared grid distance 2 within
the radius `(2·1)² = 4`, and its count increases by the influence. -/
theorem som_train_influence_witness :
    (1 < somInflEx.nbin ∧ 0 < somInflEx.kdim
      ∧ ((gridD2 (som_bmu somInflEx 0 vecZero) 1 1 : ℤ) : ℚ)
          ≤ trainRadius (fun _ : ℚ => 1) somInflEx 0)
    ∧ (som_train (fun _ : ℚ => 1) somInflEx 0 vecZero).c (cellIdx somInflEx 0 1 1)
        = somInflEx.c (cellIdx somInflEx 0 1 1)
          + (fun _ : ℚ => (1 : ℚ))
              (-(((gridD2 (som_bmu somInflEx 0 vecZero) 1 1 : ℤ) : ℚ)
                   * ((gridD2 (som_bmu somInflEx 0 vecZero) 1 1 : ℤ) : ℚ))
                 / (2 * trainRadius (fun _ : ℚ => 1) somInflEx 0))
            * trainRate (fun _ : ℚ => 1) somInflEx 0 := by
  have hbmu : som_bmu somInflEx 0 vecZero = (0, 0) := by
    norm_num [som_bmu, gridPairs, List.range_succ, sqDist, sumRange, somInflEx, vecZero,
      wIdx, cellIdx]
  have hd : ((gridD2 (som_bmu somInflEx 0 vecZero) 1 1 : ℤ) : ℚ)
      ≤ trainRadius (fun _ : ℚ => 1) somInflEx 0 := by
    rw [hbmu]
    norm_num [gridD2, trainRadius, trainDecay, somInflEx]
  exact ⟨⟨by decide, by decide, hd⟩,
    (som_train_influence (fun _ : ℚ => 1) somInflEx 0 1 1 0 vecZero
      (by decide) (by decide) (by decide) hd).1⟩

end Vcfsom
